import Mathlib

/-!
Verification development for the criptohacienda repository.

The repository ships the React frontend, the Electron desktop shell and the
project README; the FastAPI backend (CSV parser, FIFO tax engine, pricing
service) is referenced by the README and the API client but its sources are
not part of the snapshot.  Frontend code (API client, operations table
filter, upload progress component, job-status rendering) is embedded
directly from the TypeScript sources.  The FIFO accounting engine and the
pricing resolver are modelled from the specification, as indicated on each
such definition.
-/

namespace CriptoHacienda

/-! ## FIFO accounting engine (modelled from the spec) -/

/-- Modelled from the spec: transaction kinds of the canonical ledger
(`kind ∈ {buy, sell, deposit, withdrawal}`); the backend `tax_engine` that
consumes them is not in the snapshot.  Buys and deposits open lots, sells
and withdrawals consume them. -/
inductive TxKind where
  | buy
  | sell
  | deposit
  | withdrawal
deriving DecidableEq, Repr

/-- Whether the transaction kind opens a new lot (buy/deposit). -/
def TxKind.isAcquisition : TxKind → Bool
  | .buy => true
  | .deposit => true
  | .sell => false
  | .withdrawal => false

/-- Whether the transaction kind consumes open lots (sell/withdrawal). -/
def TxKind.isDisposal : TxKind → Bool
  | .sell => true
  | .withdrawal => true
  | .buy => false
  | .deposit => false

/-- Modelled from the spec: a canonical ledger transaction (asset symbol,
quantity, unit price in the reporting currency, fee in the reporting
currency).  Arithmetic uses exact rationals, matching the requirement that
no floating-point rounding occur in cost-basis or gain computation. -/
structure Tx where
  kind : TxKind
  asset : String
  qty : ℚ
  price : ℚ
  fee : ℚ
deriving DecidableEq, Repr

/-- Modelled from the spec: an open lot (asset, remaining quantity, unit
cost basis fixed at creation, and the audit flag for inferred/synthetic
lots created for disposal shortfalls). -/
structure Lot where
  asset : String
  qty : ℚ
  unitCost : ℚ
  synthetic : Bool
deriving DecidableEq, Repr

/-- Modelled from the spec: a realized gain emitted when a disposal closes
(part of) a lot: quantity closed, proceeds, cost basis consumed, gain =
proceeds − cost basis, and the audit flag marking closures against
inferred/synthetic (zero-cost-basis) lots. -/
structure RealizedGain where
  asset : String
  qty : ℚ
  proceeds : ℚ
  costBasis : ℚ
  gain : ℚ
  synthetic : Bool
deriving DecidableEq, Repr

/-- Modelled from the spec: engine state, the open lots in acquisition
order together with the realized gains emitted so far. -/
structure EngineState where
  lots : List Lot
  gains : List RealizedGain
deriving DecidableEq, Repr

/-- Modelled from the spec: consume open lots for `asset` in acquisition
order (oldest first) to close `need` units at effective unit sale price
`sellPrice`.  Lots of other assets are left in place.  If the closing
quantity exceeds the total open quantity, the shortfall is treated as a
zero-cost-basis lot and the corresponding realized gain is flagged as
synthetic.  Fully consumed lots are removed. -/
def consumeLots (asset : String) (sellPrice : ℚ) (need : ℚ)
    (lots : List Lot) : List RealizedGain × List Lot :=
  match lots with
  | [] =>
      if 0 < need then
        ([{ asset := asset, qty := need, proceeds := need * sellPrice,
            costBasis := 0, gain := need * sellPrice, synthetic := true }], [])
      else ([], [])
  | lot :: rest =>
      if need ≤ 0 then ([], lot :: rest)
      else if lot.asset ≠ asset then
        let r := consumeLots asset sellPrice need rest
        (r.1, lot :: r.2)
      else if lot.qty ≤ need then
        let g : RealizedGain :=
          { asset := asset, qty := lot.qty, proceeds := lot.qty * sellPrice,
            costBasis := lot.qty * lot.unitCost,
            gain := lot.qty * (sellPrice - lot.unitCost), synthetic := false }
        let r := consumeLots asset sellPrice (need - lot.qty) rest
        (g :: r.1, r.2)
      else
        ([{ asset := asset, qty := need, proceeds := need * sellPrice,
            costBasis := need * lot.unitCost,
            gain := need * (sellPrice - lot.unitCost), synthetic := false }],
         { lot with qty := lot.qty - need } :: rest)

/-- Modelled from the spec: process one transaction.  A buy/deposit opens a
new lot whose unit cost is the transaction price plus the fee spread over
the quantity (fees increase cost basis on the opening side); a
sell/withdrawal consumes lots at the transaction price minus the fee spread
over the quantity (fees reduce proceeds on the closing side). -/
def processTx (st : EngineState) (tx : Tx) : EngineState :=
  if tx.kind.isAcquisition then
    { st with
      lots := st.lots ++
        [{ asset := tx.asset, qty := tx.qty,
           unitCost := tx.price + tx.fee / tx.qty, synthetic := false }] }
  else
    let r := consumeLots tx.asset (tx.price - tx.fee / tx.qty) tx.qty st.lots
    { lots := r.2, gains := st.gains ++ r.1 }

/-- Modelled from the spec: run the engine over a chronologically ordered
ledger starting from the empty state. -/
def processLedger (ledger : List Tx) : EngineState :=
  ledger.foldl processTx { lots := [], gains := [] }

/-- The two-row ledger of the spec's concrete scenario: BUY 1 BTC at
20000 (fee 0) then SELL 0.4 BTC at 25000 (fee 0). -/
def scenarioLedger : List Tx :=
  [{ kind := .buy, asset := "BTC", qty := 1, price := 20000, fee := 0 },
   { kind := .sell, asset := "BTC", qty := 2/5, price := 25000, fee := 0 }]

/-- The three-row ledger of the spec's FIFO-order example: buys
B1(qty 2, cost 10) then B2(qty 3, cost 12), then a sell of 4 units
(at price 20, fee 0). -/
def fifoLedger : List Tx :=
  [{ kind := .buy, asset := "A", qty := 2, price := 10, fee := 0 },
   { kind := .buy, asset := "A", qty := 3, price := 12, fee := 0 },
   { kind := .sell, asset := "A", qty := 4, price := 20, fee := 0 }]

/-- The open lots of a given asset, in acquisition order. -/
def assetLots (asset : String) (lots : List Lot) : List Lot :=
  lots.filter (fun l => l.asset == asset)

/-! ## Quantity conservation aggregates (modelled from the spec) -/

/-- Total buy/deposit quantity of an asset in a ledger. -/
def acquiredQty (ledger : List Tx) (a : String) : ℚ :=
  ((ledger.filter (fun t => t.kind.isAcquisition && t.asset == a)).map Tx.qty).sum

/-- Total remaining open-lot quantity of an asset. -/
def openQty (lots : List Lot) (a : String) : ℚ :=
  ((assetLots a lots).map Lot.qty).sum

/-- Total realized-gain quantity closed for an asset (all RealizedGain
records, synthetic closures included). -/
def realizedQty (gains : List RealizedGain) (a : String) : ℚ :=
  ((gains.filter (fun g => g.asset == a)).map RealizedGain.qty).sum

/-- Total quantity closed against inferred/synthetic zero-cost lots for an
asset (the shortfall of disposals exceeding the open quantity). -/
def syntheticQty (gains : List RealizedGain) (a : String) : ℚ :=
  ((gains.filter (fun g => g.asset == a && g.synthetic)).map RealizedGain.qty).sum

/-- Modelled from the spec: the withdrawal quantity left unmatched after
processing.  Under the spec's shortfall policy every sell/withdrawal is
fully matched — a shortfall is closed against an inferred zero-cost lot —
so no withdrawal quantity ever remains unmatched. -/
def unmatchedWithdrawalQty (_ledger : List Tx) (_asset : String) : ℚ := 0

/-- A one-row ledger with a withdrawal of 1 BTC and no prior acquisition. -/
def shortfallLedger : List Tx :=
  [{ kind := .withdrawal, asset := "BTC", qty := 1, price := 10, fee := 0 }]

/-! ## Pricing resolver and valuation (modelled from the spec) -/

/-- A holding valued at a point in time (asset, quantity, current market
value in the reporting currency). -/
structure PricedHolding where
  asset : String
  quantity : ℚ
  currentValue : ℚ
deriving DecidableEq, Repr

/-- The valuation part of the aggregated dashboard output: the valued
holdings and the set of assets whose historical price could not be
resolved. -/
structure ValuationOutput where
  holdings : List PricedHolding
  missingPrices : List String
deriving DecidableEq, Repr

/-- Modelled from the spec: value one open position against the price
oracle (`resolve(asset, timestamp) -> price | unresolved` collapsed to its
outcome at the valuation point).  An unresolved price values the position
at 0; the backend pricing service is not in the snapshot. -/
def valueHolding (oracle : String → Option ℚ) (position : String × ℚ) :
    PricedHolding :=
  match oracle position.1 with
  | some price =>
      { asset := position.1, quantity := position.2,
        currentValue := position.2 * price }
  | none => { asset := position.1, quantity := position.2, currentValue := 0 }

/-- Modelled from the spec: the valuation step of the pipeline.  Every
position is valued (unresolved prices degrade to a zero valuation) and
each asset whose price is unresolved is recorded in `missingPrices`; a
failed lookup never raises an error, so the step always returns `ok`. -/
def runValuation (oracle : String → Option ℚ)
    (positions : List (String × ℚ)) : Except String ValuationOutput :=
  .ok { holdings := positions.map (valueHolding oracle),
        missingPrices :=
          (positions.filter (fun p => (oracle p.1).isNone)).map Prod.fst }

/-- Whether the pipeline step finished without a fatal error. -/
def pipelineCompleted : Except String ValuationOutput → Bool
  | .ok _ => true
  | .error _ => false

/-- The `missingPrices` set of a pipeline result. -/
def resultMissingPrices : Except String ValuationOutput → List String
  | .ok r => r.missingPrices
  | .error _ => []

/-! ## Operations table filtering (OperationsTable.tsx) -/

/-- An operation row of the dashboard response (`Operation` in the API
client): id, date, asset and type are strings, amounts are numbers, fee
and total are optional. -/
structure Operation where
  id : String
  date : String
  asset : String
  type : String
  amount : ℚ
  price : ℚ
  fee : Option ℚ
  total : Option ℚ
deriving DecidableEq, Repr

/-- The operations table filter state: each field is unset (`none`,
covering both an absent and an empty filter input) or set to a value. -/
structure FilterState where
  startDate : Option String
  endDate : Option String
  asset : Option String
  type : Option String
deriving DecidableEq, Repr

/-- The row predicate of `OperationsTable.filtered`: a set start date
excludes rows with `op.date < startDate`, a set end date excludes rows
with `op.date > endDate` (string comparison), a set asset or type excludes
rows not equal to it; the row survives when no set filter excludes it. -/
def keepsOperation (filters : FilterState) (op : Operation) : Bool :=
  !(match filters.startDate with
    | some s => decide (op.date < s)
    | none => false)
  && !(match filters.endDate with
    | some e => decide (e < op.date)
    | none => false)
  && !(match filters.asset with
    | some a => decide (op.asset ≠ a)
    | none => false)
  && !(match filters.type with
    | some t => decide (op.type ≠ t)
    | none => false)

/-- `OperationsTable.filtered`: the operations surviving the filter state,
in their original order. -/
def filteredOperations (operations : List Operation)
    (filters : FilterState) : List Operation :=
  operations.filter (fun op => keepsOperation filters op)

/-! ## API client, first generation (api/client.ts with fixed error
messages) -/

namespace ApiV1

/-- The dashboard grouping granularity (`'day' | 'month' | 'year'`). -/
inductive GroupBy where
  | day
  | month
  | year
deriving DecidableEq, Repr

/-- The query-parameter value of a grouping granularity. -/
def GroupBy.toParam : GroupBy → String
  | .day => "day"
  | .month => "month"
  | .year => "year"

/-- `DashboardFilters`: all fields optional. -/
structure DashboardFilters where
  groupBy : Option GroupBy
  startDate : Option String
  endDate : Option String
  asset : Option String
  type : Option String
deriving DecidableEq, Repr

/-- One `params.append(key, value)` call guarded by a truthiness check:
it contributes a single query pair when the filter is set and nothing
otherwise. -/
def optParam (key : String) : Option String → List (String × String)
  | some value => [(key, value)]
  | none => []

/-- The query parameters built by `ApiClient.fetchDashboard`:
`session_id` always, then `group_by`, `start_date`, `end_date`, `asset`
and `type`, each present iff the corresponding filter is set. -/
def fetchDashboardParams (sessionId : String)
    (filters : DashboardFilters) : List (String × String) :=
  [("session_id", sessionId)]
    ++ optParam "group_by" (filters.groupBy.map GroupBy.toParam)
    ++ optParam "start_date" filters.startDate
    ++ optParam "end_date" filters.endDate
    ++ optParam "asset" filters.asset
    ++ optParam "type" filters.type

/-- The query parameters built by `ApiClient.exportOperationsCsv`:
`session_id` always, then `start_date`, `end_date`, `asset` and `type`,
each present iff the corresponding filter is set (no `group_by`). -/
def exportOperationsParams (sessionId : String)
    (filters : DashboardFilters) : List (String × String) :=
  [("session_id", sessionId)]
    ++ optParam "start_date" filters.startDate
    ++ optParam "end_date" filters.endDate
    ++ optParam "asset" filters.asset
    ++ optParam "type" filters.type

/-- `UploadResponse`: the body of a successful
`POST /api/upload/binance-csv`, carrying the session id. -/
structure UploadResponse where
  session_id : String
deriving DecidableEq, Repr

/-- The observable outcome of the upload fetch: whether the HTTP response
was ok, and the parsed body on success. -/
structure HttpResponse where
  ok : Bool
  payload : UploadResponse
deriving DecidableEq, Repr

/-- `ApiClient.uploadBinanceCsv`: returns the parsed `UploadResponse` on
an ok response and throws a fixed error message otherwise. -/
def uploadBinanceCsv (response : HttpResponse) : Except String UploadResponse :=
  if response.ok then .ok response.payload
  else .error "No se pudo subir el archivo. Inténtalo de nuevo."

end ApiV1

/-! ## Upload page submission (UploadPage.tsx) -/

/-- The body of a successful `uploadUnified` call as consumed by
`UploadPage.handleSubmit` (`response.session_id ?? null`): an optional
session id. -/
structure UnifiedUploadResponse where
  session_id : Option String
deriving DecidableEq, Repr

/-- The page state produced by a successful submission: the stored session
id and the route navigated to. -/
structure UploadPageState where
  sessionId : Option String
  route : String
deriving DecidableEq, Repr

/-- `UploadPage.handleSubmit`, success path: stores
`response.session_id ?? null` as the session and navigates to
`/dashboard` immediately, without polling any job. -/
def handleSubmitSuccess (response : UnifiedUploadResponse) : UploadPageState :=
  { sessionId := response.session_id, route := "/dashboard" }

/-! ## Upload progress steps (FileUpload.tsx / ProcessingStatusModal.tsx) -/

/-- `StepStatus` of `ProcessingStatusModal.tsx`. -/
inductive StepStatus where
  | pending
  | active
  | done
deriving DecidableEq, Repr

/-- A processing step shown in the modal: id, label and status. -/
structure ProcessingStep where
  id : String
  label : String
  status : StepStatus
deriving DecidableEq, Repr

/-- `PROCESSING_SEQUENCE` of `FileUpload.tsx`: the five pipeline steps
(id, label), without a status. -/
def PROCESSING_SEQUENCE : List (String × String) :=
  [("upload", "Subiendo archivo"),
   ("validate", "Validando formato y agrupando movimientos"),
   ("calc", "Calculando operaciones, lotes y ganancias"),
   ("pricing", "Obteniendo cotizaciones históricas"),
   ("dashboard", "Generando dashboard e informes")]

/-- `list.map((x, index) => ...)` with its running index, as used by the
step transitions. -/
def mapWithIndex {α β : Type} (f : Nat → α → β) : Nat → List α → List β
  | _, [] => []
  | i, x :: xs => f i x :: mapWithIndex f (i + 1) xs

/-- `createInitialSteps`: step 0 `active`, every later step `pending`. -/
def createInitialSteps : List ProcessingStep :=
  mapWithIndex
    (fun index step =>
      { id := step.1, label := step.2,
        status := if index = 0 then .active else .pending })
    0 PROCESSING_SEQUENCE

/-- `advanceStep(targetIndex)`: every step before the target becomes
`done`, the target becomes `active`, every later step becomes
`pending`. -/
def advanceStep (targetIndex : Nat) (prev : List ProcessingStep) :
    List ProcessingStep :=
  mapWithIndex
    (fun index step =>
      if index < targetIndex then { step with status := .done }
      else if index = targetIndex then { step with status := .active }
      else { step with status := .pending })
    0 prev

/-- `finishProcessing`: every step becomes `done`. -/
def finishProcessing (prev : List ProcessingStep) : List ProcessingStep :=
  prev.map (fun step => { step with status := .done })

/-- The step lists reachable through the component's transitions:
the initial list, and the result of `advanceStep` or `finishProcessing`
on a reachable list. -/
inductive ReachableSteps : List ProcessingStep → Prop where
  | init : ReachableSteps createInitialSteps
  | advance (targetIndex : Nat) (prev : List ProcessingStep) :
      ReachableSteps prev → ReachableSteps (advanceStep targetIndex prev)
  | finish (prev : List ProcessingStep) :
      ReachableSteps prev → ReachableSteps (finishProcessing prev)

/-- The in-order invariant of a step list: at most one step is `active`,
every step before an `active` step is `done`, and every step after an
`active` step is `pending`. -/
def orderedSteps (steps : List ProcessingStep) : Prop :=
  (∀ i j : Fin steps.length, (steps.get i).status = .active →
      (steps.get j).status = .active → i = j)
  ∧ (∀ i j : Fin steps.length, (i : Nat) < (j : Nat) →
      (steps.get j).status = .active → (steps.get i).status = .done)
  ∧ (∀ i j : Fin steps.length, (i : Nat) < (j : Nat) →
      (steps.get i).status = .active → (steps.get j).status = .pending)

/-! ## Job status rendering (FileUpload job-polling variant /
ProcessingStatusModal.tsx) -/

/-- The backend job step statuses accepted by `mapStatus`
(`'pending' | 'running' | 'completed' | 'error'`). -/
inductive JobStepStatus where
  | pending
  | running
  | completed
  | error
deriving DecidableEq, Repr

/-- `mapStatus` of the job-polling `FileUpload`: maps a backend step
status to the display status string handed to the modal. -/
def mapStatus : JobStepStatus → String
  | .running => "active"
  | .completed => "done"
  | .error => "error"
  | .pending => "pending"

/-- The `statusIcon` record of `ProcessingStatusModal.tsx` as the runtime
lookup it performs: entries exist for `pending`, `active` and `done`
only; any other key yields `undefined` (`none`). -/
def statusIcon (status : String) : Option String :=
  if status = "pending" then some "⏳"
  else if status = "active" then some "⚡"
  else if status = "done" then some "✅"
  else none

/-! ## API client, second generation (api/client.ts with buildError) -/

namespace ApiV2

/-- JSON values as parsed from a response body by `response.json()`. -/
inductive Json where
  | str (s : String)
  | num (n : Int)
  | bool (b : Bool)
  | null
  | arr (items : List Json)
  | obj (fields : List (String × Json))

/-- Property access `data.key`: a value on an object with that key,
`undefined` (`none`) otherwise. -/
def getField (data : Json) (key : String) : Option Json :=
  match data with
  | .obj fields =>
      match fields.find? (fun field => field.1 == key) with
      | some field => some field.2
      | none => none
  | _ => none

/-- JavaScript truthiness of a parsed JSON value. -/
def isTruthy : Json → Bool
  | .str s => decide (s ≠ "")
  | .num n => decide (n ≠ 0)
  | .bool b => b
  | .null => false
  | .arr _ => true
  | .obj _ => true

/-- Whether `typeof value === 'object'` holds for a parsed JSON value
(objects, arrays and null). -/
def isObjectType : Json → Bool
  | .obj _ => true
  | .arr _ => true
  | .null => true
  | _ => false

/-- Whitespace stripping as performed by `String.prototype.trim`. -/
def trimString (s : String) : String :=
  (((s.toList.dropWhile Char.isWhitespace).reverse.dropWhile
      Char.isWhitespace).reverse).asString

mutual

/-- `JSON.stringify` on a parsed JSON value. -/
def stringify : Json → String
  | .str s => "\"" ++ s ++ "\""
  | .num n => toString n
  | .bool b => if b then "true" else "false"
  | .null => "null"
  | .arr items => "[" ++ stringifyItems items ++ "]"
  | .obj fields => "\x7b" ++ stringifyFields fields ++ "\x7d"

/-- `JSON.stringify` on the items of an array, comma separated. -/
def stringifyItems : List Json → String
  | [] => ""
  | [item] => stringify item
  | item :: rest => stringify item ++ "," ++ stringifyItems rest

/-- `JSON.stringify` on the fields of an object, comma separated. -/
def stringifyFields : List (String × Json) → String
  | [] => ""
  | [(key, value)] => "\"" ++ key ++ "\":" ++ stringify value
  | (key, value) :: rest =>
      "\"" ++ key ++ "\":" ++ stringify value ++ "," ++ stringifyFields rest

end

/-- The checks of `buildError` after the `detail` checks: a non-blank
`message` string wins, otherwise the fallback message. -/
def messageThenFallback (data : Json) (fallbackMessage : String) : String :=
  match getField data "message" with
  | some (.str m) => if trimString m ≠ "" then m else fallbackMessage
  | _ => fallbackMessage

/-- The checks of `buildError` after the body-is-a-non-blank-string
check: a non-blank `detail` string wins, then a truthy object-typed
`detail` is serialized, then the `message`/fallback checks apply. -/
def detailThenMessage (data : Json) (fallbackMessage : String) : String :=
  match getField data "detail" with
  | some (.str d) =>
      if trimString d ≠ "" then d else messageThenFallback data fallbackMessage
  | some d =>
      if isTruthy d && isObjectType d then stringify d
      else messageThenFallback data fallbackMessage
  | none => messageThenFallback data fallbackMessage

/-- `ApiClient.buildError`: derive the thrown message from the parsed
response body (`none` models a body `response.json()` failed to parse),
with the given per-method fallback message. -/
def buildError (parsed : Option Json) (fallbackMessage : String) : String :=
  match parsed with
  | none => fallbackMessage
  | some data =>
      match data with
      | .str s =>
          if trimString s ≠ "" then s else detailThenMessage data fallbackMessage
      | _ => detailThenMessage data fallbackMessage

/-- The observable outcome of a fetch in the second-generation client:
HTTP ok flag and the parsed response body (the success payload is not
relevant to the error path and is abstracted away). -/
structure ApiResponse where
  ok : Bool
  body : Option Json

/-- The fixed fallback message of `uploadBinanceCsv`. -/
def uploadFallbackMessage : String :=
  "No se pudo subir el archivo. Inténtalo de nuevo."

/-- The fixed fallback message of `fetchDashboard`. -/
def dashboardFallbackMessage : String :=
  "No se pudo obtener la información del dashboard."

/-- The fixed fallback message of `exportOperationsCsv`. -/
def exportFallbackMessage : String :=
  "No se pudo exportar el CSV."

/-- `ApiClient.uploadBinanceCsv` (second generation), error behaviour:
throws `buildError` of the body on a non-ok response. -/
def uploadBinanceCsv (response : ApiResponse) : Except String Unit :=
  if response.ok then .ok ()
  else .error (buildError response.body uploadFallbackMessage)

/-- `ApiClient.fetchDashboard` (second generation), error behaviour. -/
def fetchDashboard (response : ApiResponse) : Except String Unit :=
  if response.ok then .ok ()
  else .error (buildError response.body dashboardFallbackMessage)

/-- `ApiClient.exportOperationsCsv` (second generation), error
behaviour. -/
def exportOperationsCsv (response : ApiResponse) : Except String Unit :=
  if response.ok then .ok ()
  else .error (buildError response.body exportFallbackMessage)

end ApiV2

end CriptoHacienda

namespace CriptoHacienda

/-! ## Engine lemmas -/

/-- After a disposal, the surviving lots of the disposed asset are a tail
of the original acquisition-ordered lot list: a prefix of lots (the oldest
ones) were removed, the first survivor may have had its quantity reduced
(to a positive amount strictly below its original quantity), and every
later lot is untouched. -/
theorem consumeLots_oldest_first (a : String) (p : ℚ) :
    ∀ (L : List Lot) (n : ℚ), ∃ k,
      assetLots a (consumeLots a p n L).2 = (assetLots a L).drop k
      ∨ ∃ q lot t,
          (assetLots a L).drop k = lot :: t ∧ 0 < q ∧ q < lot.qty ∧
          assetLots a (consumeLots a p n L).2 = { lot with qty := q } :: t := by
  intro L
  induction L with
  | nil =>
      intro n
      refine ⟨0, Or.inl ?_⟩
      simp only [consumeLots, assetLots]
      split <;> simp
  | cons lot rest ih =>
      intro n
      by_cases h0 : n ≤ 0
      · exact ⟨0, Or.inl (by simp [consumeLots, h0])⟩
      · by_cases ha : lot.asset = a
        · by_cases hq : lot.qty ≤ n
          · obtain ⟨k, hk⟩ := ih (n - lot.qty)
            refine ⟨k + 1, ?_⟩
            have hcons :
                (consumeLots a p n (lot :: rest)).2 =
                  (consumeLots a p (n - lot.qty) rest).2 := by
              simp [consumeLots, h0, ha, hq]
            have horig : assetLots a (lot :: rest) = lot :: assetLots a rest := by
              simp [assetLots, ha]
            rw [hcons, horig]
            simpa using hk
          · push_neg at h0 hq
            refine ⟨0, Or.inr ⟨lot.qty - n, lot, assetLots a rest, ?_, ?_, ?_, ?_⟩⟩
            · simp [assetLots, ha]
            · exact sub_pos.mpr hq
            · exact sub_lt_self _ h0
            · have hcons :
                  (consumeLots a p n (lot :: rest)).2 =
                    { lot with qty := lot.qty - n } :: rest := by
                have h0' : ¬ n ≤ 0 := not_le.mpr h0
                have hq' : ¬ lot.qty ≤ n := not_le.mpr hq
                simp [consumeLots, h0', ha, hq']
              rw [hcons]
              simp [assetLots, ha]
        · obtain ⟨k, hk⟩ := ih n
          refine ⟨k, ?_⟩
          have hcons :
              (consumeLots a p n (lot :: rest)).2 =
                lot :: (consumeLots a p n rest).2 := by
            simp [consumeLots, h0, ha]
          have hfl : assetLots a (lot :: (consumeLots a p n rest).2) =
              assetLots a (consumeLots a p n rest).2 := by
            simp [assetLots, ha]
          have horig : assetLots a (lot :: rest) = assetLots a rest := by
            simp [assetLots, ha]
          rw [hcons, hfl, horig]
          exact hk

theorem consumeLots_conservation (a : String) (p : ℚ) :
    ∀ (L : List Lot) (n : ℚ) (b : String),
      realizedQty (consumeLots a p n L).1 b + openQty (consumeLots a p n L).2 b
        = openQty L b + syntheticQty (consumeLots a p n L).1 b := by
  intro L
  induction L with
  | nil =>
      intro n b
      simp only [consumeLots]
      split
      · by_cases hb : a = b <;>
          simp [realizedQty, openQty, syntheticQty, assetLots, hb]
      · simp [realizedQty, openQty, syntheticQty, assetLots]
  | cons lot rest ih =>
      intro n b
      by_cases h0 : n ≤ 0
      · simp [consumeLots, h0, realizedQty, syntheticQty]
      · by_cases ha : lot.asset = a
        · by_cases hq : lot.qty ≤ n
          · have hcons :
                consumeLots a p n (lot :: rest) =
                  ({ asset := a, qty := lot.qty, proceeds := lot.qty * p,
                     costBasis := lot.qty * lot.unitCost,
                     gain := lot.qty * (p - lot.unitCost), synthetic := false }
                      :: (consumeLots a p (n - lot.qty) rest).1,
                   (consumeLots a p (n - lot.qty) rest).2) := by
              simp [consumeLots, h0, ha, hq]
            have hih := ih (n - lot.qty) b
            by_cases hb : a = b
            · simp only [hcons, realizedQty, openQty, syntheticQty, assetLots,
                List.filter_cons] at hih ⊢
              simp [hb, ha] at hih ⊢
              linarith
            · simp only [hcons, realizedQty, openQty, syntheticQty, assetLots,
                List.filter_cons] at hih ⊢
              have hb' : lot.asset ≠ b := by rw [ha]; exact hb
              simp [hb, hb'] at hih ⊢
              linarith
          · have hcons :
                consumeLots a p n (lot :: rest) =
                  ([{ asset := a, qty := n, proceeds := n * p,
                      costBasis := n * lot.unitCost,
                      gain := n * (p - lot.unitCost), synthetic := false }],
                   { lot with qty := lot.qty - n } :: rest) := by
              simp [consumeLots, h0, ha, hq]
            by_cases hb : a = b
            · simp only [hcons, realizedQty, openQty, syntheticQty, assetLots,
                List.filter_cons]
              have hla : lot.asset = b := by rw [ha]; exact hb
              simp [hb, hla]
              ring
            · have hb' : lot.asset ≠ b := by rw [ha]; exact hb
              simp [hcons, realizedQty, openQty, syntheticQty, assetLots, hb, hb']
        · have hcons :
              consumeLots a p n (lot :: rest) =
                ((consumeLots a p n rest).1, lot :: (consumeLots a p n rest).2) := by
            simp [consumeLots, h0, ha]
          have hih := ih n b
          by_cases hlb : lot.asset = b
          · simp only [hcons, realizedQty, openQty, syntheticQty, assetLots,
              List.filter_cons] at hih ⊢
            simp [hlb] at hih ⊢
            linarith
          · simp only [hcons, realizedQty, openQty, syntheticQty, assetLots,
              List.filter_cons] at hih ⊢
            simp [hlb] at hih ⊢
            linarith

theorem processTx_conservation (st : EngineState) (tx : Tx) (b : String) :
    realizedQty (processTx st tx).gains b + openQty (processTx st tx).lots b
        - syntheticQty (processTx st tx).gains b
      = realizedQty st.gains b + openQty st.lots b - syntheticQty st.gains b
        + (if tx.kind.isAcquisition ∧ tx.asset = b then tx.qty else 0) := by
  by_cases hk : tx.kind.isAcquisition
  · by_cases hb : tx.asset = b
    · simp [processTx, hk, hb, openQty, assetLots, realizedQty, syntheticQty]
      ring
    · simp [processTx, hk, hb, openQty, assetLots, realizedQty, syntheticQty]
  · have hc := consumeLots_conservation tx.asset (tx.price - tx.fee / tx.qty)
      st.lots tx.qty b
    have hif : (if tx.kind.isAcquisition ∧ tx.asset = b then tx.qty else 0) = 0 := by
      simp [hk]
    rw [hif]
    simp only [processTx, hk, Bool.false_eq_true, if_false]
    simp only [realizedQty, syntheticQty, openQty, assetLots,
      List.filter_append, List.map_append, List.sum_append] at hc ⊢
    linarith

theorem processLedger_conservation_aux :
    ∀ (ledger : List Tx) (st : EngineState) (b : String),
      realizedQty (ledger.foldl processTx st).gains b
          + openQty (ledger.foldl processTx st).lots b
          - syntheticQty (ledger.foldl processTx st).gains b
        = realizedQty st.gains b + openQty st.lots b - syntheticQty st.gains b
          + acquiredQty ledger b := by
  intro ledger
  induction ledger with
  | nil => intro st b; simp [acquiredQty]
  | cons tx rest ih =>
      intro st b
      have hstep := processTx_conservation st tx b
      have hacq : acquiredQty (tx :: rest) b =
          (if tx.kind.isAcquisition ∧ tx.asset = b then tx.qty else 0)
            + acquiredQty rest b := by
        simp only [acquiredQty, List.filter_cons]
        by_cases h : tx.kind.isAcquisition ∧ tx.asset = b
        · simp [h.1, h.2]
        · rw [if_neg h]
          rcases Classical.em tx.kind.isAcquisition with h1 | h1
          · have h2 : tx.asset ≠ b := fun hc => h ⟨h1, hc⟩
            simp [h1, h2]
          · simp [h1]
      rw [List.foldl_cons, ih (processTx st tx) b, hacq]
      linarith

/-! ## Step list lemmas -/

theorem mapWithIndex_length {α β : Type} (f : Nat → α → β) :
    ∀ (k : Nat) (l : List α), (mapWithIndex f k l).length = l.length := by
  intro k l
  induction l generalizing k with
  | nil => rfl
  | cons x xs ih => simp [mapWithIndex, ih]

theorem mapWithIndex_get {α β : Type} (f : Nat → α → β) :
    ∀ (k : Nat) (l : List α) (i : Nat) (hi : i < l.length)
      (hm : i < (mapWithIndex f k l).length),
      (mapWithIndex f k l).get ⟨i, hm⟩ = f (k + i) (l.get ⟨i, hi⟩) := by
  intro k l
  induction l generalizing k with
  | nil => intro i hi; exact absurd hi (Nat.not_lt_zero i)
  | cons x xs ih =>
      intro i hi hm
      cases i with
      | zero => simp [mapWithIndex]
      | succ n =>
          have hn : n < xs.length := Nat.lt_of_succ_lt_succ hi
          have hmn : n < (mapWithIndex f (k + 1) xs).length := by
            rw [mapWithIndex_length]; exact hn
          have : (mapWithIndex f k (x :: xs)).get ⟨n + 1, hm⟩ =
              (mapWithIndex f (k + 1) xs).get ⟨n, hmn⟩ := rfl
          rw [this, ih (k + 1) n hn hmn]
          congr 1
          omega

theorem advanceStep_status (targetIndex : Nat) (prev : List ProcessingStep)
    (i : Nat) (hm : i < (advanceStep targetIndex prev).length) :
    ((advanceStep targetIndex prev).get ⟨i, hm⟩).status =
      (if i < targetIndex then StepStatus.done
       else if i = targetIndex then StepStatus.active
       else StepStatus.pending) := by
  have hi : i < prev.length := by
    simpa only [advanceStep, mapWithIndex_length] using hm
  simp only [advanceStep]
  rw [mapWithIndex_get _ 0 prev i hi]
  simp only [Nat.zero_add]
  by_cases h1 : i < targetIndex
  · simp [h1]
  · by_cases h2 : i = targetIndex <;> simp [h1, h2]

theorem advanceStep_ordered (targetIndex : Nat)
    (prev : List ProcessingStep) : orderedSteps (advanceStep targetIndex prev) := by
  refine ⟨?_, ?_, ?_⟩
  · intro i j hi hj
    rw [advanceStep_status] at hi hj
    have hieq : (i : Nat) = targetIndex := by
      by_cases h1 : (i : Nat) < targetIndex
      · simp [h1] at hi
      · by_cases h2 : (i : Nat) = targetIndex
        · exact h2
        · simp [h1, h2] at hi
    have hjeq : (j : Nat) = targetIndex := by
      by_cases h1 : (j : Nat) < targetIndex
      · simp [h1] at hj
      · by_cases h2 : (j : Nat) = targetIndex
        · exact h2
        · simp [h1, h2] at hj
    exact Fin.ext (hieq.trans hjeq.symm)
  · intro i j hij hj
    rw [advanceStep_status] at hj
    have hjeq : (j : Nat) = targetIndex := by
      by_cases h1 : (j : Nat) < targetIndex
      · simp [h1] at hj
      · by_cases h2 : (j : Nat) = targetIndex
        · exact h2
        · simp [h1, h2] at hj
    rw [advanceStep_status]
    have : (i : Nat) < targetIndex := by omega
    simp [this]
  · intro i j hij hi
    rw [advanceStep_status] at hi
    have hieq : (i : Nat) = targetIndex := by
      by_cases h1 : (i : Nat) < targetIndex
      · simp [h1] at hi
      · by_cases h2 : (i : Nat) = targetIndex
        · exact h2
        · simp [h1, h2] at hi
    rw [advanceStep_status]
    have h1 : ¬ (j : Nat) < targetIndex := by omega
    have h2 : (j : Nat) ≠ targetIndex := by omega
    simp [h1, h2]

theorem finishProcessing_status (prev : List ProcessingStep) :
    ∀ (i : Nat) (hm : i < (finishProcessing prev).length),
      ((finishProcessing prev).get ⟨i, hm⟩).status = StepStatus.done := by
  intro i
  induction prev generalizing i with
  | nil => intro hm; exact absurd hm (Nat.not_lt_zero i)
  | cons x xs ih =>
      intro hm
      cases i with
      | zero => rfl
      | succ n => exact ih n (by simpa [finishProcessing] using hm)

theorem finishProcessing_ordered (prev : List ProcessingStep) :
    orderedSteps (finishProcessing prev) := by
  refine ⟨?_, ?_, ?_⟩
  · intro i j hi _
    rw [finishProcessing_status] at hi
    exact absurd hi (by simp)
  · intro i j _ hj
    rw [finishProcessing_status] at hj
    exact absurd hj (by simp)
  · intro i j _ hi
    rw [finishProcessing_status] at hi
    exact absurd hi (by simp)

/-! ## Filter lemmas -/

theorem keepsOperation_iff (filters : FilterState) (op : Operation) :
    keepsOperation filters op = true ↔
      (∀ s, filters.startDate = some s → s ≤ op.date)
      ∧ (∀ e, filters.endDate = some e → op.date ≤ e)
      ∧ (∀ a, filters.asset = some a → op.asset = a)
      ∧ (∀ t, filters.type = some t → op.type = t) := by
  rcases filters with ⟨sd, ed, fa, ft⟩
  rcases sd with _ | s <;> rcases ed with _ | e <;>
    rcases fa with _ | a <;> rcases ft with _ | t <;>
      simp [keepsOperation, not_lt, and_assoc]

/-! ## Claim theorems -/

/-- C1: for the two-row ledger BUY 1 BTC @20000 (fee 0) then SELL 0.4 BTC
@25000 (fee 0), the FIFO engine produces exactly one open lot (asset BTC,
quantity 0.6, unit cost 20000) and exactly one realized gain (quantity 0.4,
proceeds 10000, cost basis 8000, gain 2000). -/
theorem fifo_concrete_scenario :
    processLedger scenarioLedger =
      { lots := [{ asset := "BTC", qty := 3/5, unitCost := 20000, synthetic := false }],
        gains := [{ asset := "BTC", qty := 2/5, proceeds := 10000,
                    costBasis := 8000, gain := 2000, synthetic := false }] } := by
  norm_num [processLedger, processTx, consumeLots, scenarioLedger, TxKind.isAcquisition]

/-- C2: disposals consume an asset's open lots strictly oldest-first: the
surviving lots of the asset are always a tail of the acquisition-ordered
lot list whose first element may only be partially reduced, so no
later-acquired lot is touched while an earlier one still has remaining
quantity.  Moreover, for buys B1(qty 2, cost 10) then B2(qty 3, cost 12)
and a sell of 4 units, the realized gains close all of B1 (quantity 2,
cost basis 20) and exactly 2 units of B2 (cost basis 24), leaving a single
open lot of 1 unit at cost 12. -/
theorem fifo_consumes_in_acquisition_order :
    (∀ (a : String) (p : ℚ) (L : List Lot) (n : ℚ), ∃ k,
      assetLots a (consumeLots a p n L).2 = (assetLots a L).drop k
      ∨ ∃ q lot t,
          (assetLots a L).drop k = lot :: t ∧ 0 < q ∧ q < lot.qty ∧
          assetLots a (consumeLots a p n L).2 = { lot with qty := q } :: t)
    ∧ processLedger fifoLedger =
      { lots := [{ asset := "A", qty := 1, unitCost := 12, synthetic := false }],
        gains := [{ asset := "A", qty := 2, proceeds := 40, costBasis := 20,
                    gain := 20, synthetic := false },
                  { asset := "A", qty := 2, proceeds := 40, costBasis := 24,
                    gain := 16, synthetic := false }] } := by
  constructor
  · exact fun a p L n => consumeLots_oldest_first a p L n
  · norm_num [processLedger, processTx, consumeLots, fifoLedger, TxKind.isAcquisition]

/-- C3 (amended): quantity conservation after processing any ledger: for
every asset, realized-gain quantity closed plus remaining open-lot
quantity equals the buy/deposit quantity plus the synthetic shortfall
quantity (the part of disposals closed against inferred zero-cost lots);
under the engine's shortfall policy no withdrawal quantity remains
unmatched, so when no shortfall occurs this is exactly the spec's
`realized + open = acquired` balance. -/
theorem quantity_conservation (ledger : List Tx) (b : String) :
    realizedQty (processLedger ledger).gains b + openQty (processLedger ledger).lots b
      = acquiredQty ledger b + syntheticQty (processLedger ledger).gains b := by
  have h := processLedger_conservation_aux ledger { lots := [], gains := [] } b
  have h' : realizedQty (processLedger ledger).gains b
      + openQty (processLedger ledger).lots b
      - syntheticQty (processLedger ledger).gains b = acquiredQty ledger b := by
    simpa [processLedger, realizedQty, openQty, syntheticQty, assetLots] using h
  linarith

/-- C3 counterexample: for the ledger consisting of a single withdrawal of
1 BTC with no prior acquisition, the shortfall policy emits a synthetic
realized gain of quantity 1, so realized + open = 1 while buy/deposit
quantity minus unmatched withdrawal quantity is 0: the claimed balance
fails. -/
theorem quantity_conservation_counterexample :
    realizedQty (processLedger shortfallLedger).gains "BTC"
        + openQty (processLedger shortfallLedger).lots "BTC"
      ≠ acquiredQty shortfallLedger "BTC"
        - unmatchedWithdrawalQty shortfallLedger "BTC" := by
  norm_num [processLedger, processTx, consumeLots, shortfallLedger,
    TxKind.isAcquisition, realizedQty, openQty, acquiredQty,
    unmatchedWithdrawalQty, assetLots]

/-- C4: a failed historical-price lookup is never fatal: the valuation
step always completes (`ok`), every position whose asset has no
resolvable price is valued at exactly 0, and that asset appears in the
`missingPrices` set of the result. -/
theorem missing_price_never_fatal (oracle : String → Option ℚ)
    (positions : List (String × ℚ)) :
    pipelineCompleted (runValuation oracle positions) = true
    ∧ ∀ position ∈ positions, oracle position.1 = none →
        (valueHolding oracle position).currentValue = 0
        ∧ position.1 ∈ resultMissingPrices (runValuation oracle positions) := by
  refine ⟨rfl, ?_⟩
  intro position hmem hnone
  constructor
  · simp [valueHolding, hnone]
  · simp only [runValuation, resultMissingPrices, List.mem_map]
    exact ⟨position, List.mem_filter.mpr ⟨hmem, by simp [hnone]⟩, rfl⟩

/-- Witness for C4 at a concrete oracle resolving nothing and one open
position of 5 XYZ. -/
theorem missing_price_never_fatal_witness :
    pipelineCompleted (runValuation (fun _ => none) [("XYZ", (5 : ℚ))]) = true
    ∧ (valueHolding (fun _ => none) ("XYZ", (5 : ℚ))).currentValue = 0
    ∧ "XYZ" ∈ resultMissingPrices (runValuation (fun _ => none) [("XYZ", (5 : ℚ))]) := by
  have h := missing_price_never_fatal (fun _ => none) [("XYZ", (5 : ℚ))]
  exact ⟨h.1, (h.2 ("XYZ", (5 : ℚ)) (by simp) rfl).1,
    (h.2 ("XYZ", (5 : ℚ)) (by simp) rfl).2⟩

/-- C5: the dashboard operations view contains exactly the operations
passing every set filter — date within the inclusive `[startDate,
endDate]` string range, asset and type equal to the set values — unset
filters exclude nothing, and the surviving operations keep their original
relative order (the view is a sublist of the input). -/
theorem operations_filter_exact (operations : List Operation)
    (filters : FilterState) :
    (filteredOperations operations filters).Sublist operations
    ∧ ∀ op, op ∈ filteredOperations operations filters ↔
        op ∈ operations
        ∧ (∀ s, filters.startDate = some s → s ≤ op.date)
        ∧ (∀ e, filters.endDate = some e → op.date ≤ e)
        ∧ (∀ a, filters.asset = some a → op.asset = a)
        ∧ (∀ t, filters.type = some t → op.type = t) := by
  refine ⟨List.filter_sublist _, ?_⟩
  intro op
  rw [filteredOperations, List.mem_filter, keepsOperation_iff]

/-- Witness for C5: a concrete operation inside the filter bounds survives
a fully set filter. -/
theorem operations_filter_exact_witness :
    ({ id := "1", date := "2024-01-02", asset := "BTC", type := "BUY",
       amount := 1, price := 10, fee := none, total := none } : Operation)
      ∈ filteredOperations
          [{ id := "1", date := "2024-01-02", asset := "BTC", type := "BUY",
             amount := 1, price := 10, fee := none, total := none }]
          { startDate := some "2024-01-01", endDate := some "2024-12-31",
            asset := some "BTC", type := some "BUY" } := by
  refine ((operations_filter_exact _ _).2 _).mpr ⟨by simp, ?_, ?_, ?_, ?_⟩
  · intro s hs
    cases hs
    rw [String.le_iff_toList_le]
    decide
  · intro e he
    cases he
    rw [String.le_iff_toList_le]
    decide
  · intro a ha
    cases ha
    rfl
  · intro t ht
    cases ht
    rfl

/-- C6: the export request uses the same filter set as the dashboard
query: for every session id and filter object, the parameters built by
`exportOperationsCsv` are exactly the parameters built by
`fetchDashboard` with the `group_by` pair removed. -/
theorem export_params_are_dashboard_params_without_groupby
    (sessionId : String) (filters : ApiV1.DashboardFilters) :
    ApiV1.exportOperationsParams sessionId filters =
      (ApiV1.fetchDashboardParams sessionId filters).filter
        (fun param => param.1 ≠ "group_by") := by
  rcases filters with ⟨gb, sd, ed, fa, ft⟩
  rcases gb with _ | gb <;> rcases sd with _ | sd <;> rcases ed with _ | ed <;>
    rcases fa with _ | fa <;> rcases ft with _ | ft <;>
      simp [ApiV1.fetchDashboardParams, ApiV1.exportOperationsParams,
        ApiV1.optParam]

/-- C7 counterexample: a successful upload response is consumed directly
as a session id: `uploadBinanceCsv` returns a body whose only datum is
`session_id`, and the upload page stores that session id and navigates to
the dashboard at once — no Job id is produced or polled. -/
theorem upload_returns_session_id_not_job_id :
    ApiV1.uploadBinanceCsv { ok := true, payload := { session_id := "sess-1" } }
        = .ok { session_id := "sess-1" }
    ∧ (handleSubmitSuccess { session_id := some "sess-1" }).sessionId
        = some "sess-1"
    ∧ (handleSubmitSuccess { session_id := some "sess-1" }).route
        = "/dashboard" :=
  ⟨rfl, rfl, rfl⟩

/-- C7 (amended): for every successful upload/analysis request the entry
point's response directly carries the session id: `uploadBinanceCsv`
returns the parsed `session_id` body on every ok response, and the upload
page stores `response.session_id` and navigates to the dashboard without
any job polling. -/
theorem upload_response_carries_session_id :
    (∀ response : ApiV1.HttpResponse, response.ok = true →
        ApiV1.uploadBinanceCsv response = .ok response.payload)
    ∧ (∀ response : UnifiedUploadResponse,
        (handleSubmitSuccess response).sessionId = response.session_id
        ∧ (handleSubmitSuccess response).route = "/dashboard") := by
  constructor
  · intro response hok
    simp [ApiV1.uploadBinanceCsv, hok]
  · intro response
    exact ⟨rfl, rfl⟩

/-- Witness for C7's amended theorem at a concrete ok response. -/
theorem upload_response_carries_session_id_witness :
    ApiV1.uploadBinanceCsv { ok := true, payload := { session_id := "s" } }
      = .ok { session_id := "s" } :=
  upload_response_carries_session_id.1
    { ok := true, payload := { session_id := "s" } } rfl

/-- C8: every step list reachable through the upload progress component's
transitions (`createInitialSteps`, `advanceStep`, `finishProcessing`) has
at most one `active` step, every step before the `active` step is `done`,
and every step after it is `pending`: steps proceed strictly in order. -/
theorem upload_steps_proceed_in_order (steps : List ProcessingStep)
    (h : ReachableSteps steps) : orderedSteps steps := by
  induction h with
  | init =>
      refine ⟨?_, ?_, ?_⟩ <;> decide
  | advance targetIndex prev _ _ => exact advanceStep_ordered targetIndex prev
  | finish prev _ _ => exact finishProcessing_ordered prev

/-- Witness for C8 at the initial step list. -/
theorem upload_steps_proceed_in_order_witness :
    orderedSteps createInitialSteps :=
  upload_steps_proceed_in_order createInitialSteps ReachableSteps.init

/-- C9 (code evaluated at the failing input): `mapStatus` composed with
the `statusIcon` lookup is defined for the `pending`, `running` and
`completed` backend statuses but yields `undefined` for `error`, because
`mapStatus` maps it to the display status `error`, which has no entry in
the `statusIcon` record. -/
theorem status_icon_lookup_incomplete :
    statusIcon (mapStatus JobStepStatus.pending) = some "⏳"
    ∧ statusIcon (mapStatus JobStepStatus.running) = some "⚡"
    ∧ statusIcon (mapStatus JobStepStatus.completed) = some "✅"
    ∧ statusIcon (mapStatus JobStepStatus.error) = none := by
  refine ⟨?_, ?_, ?_, ?_⟩ <;> decide

/-- C10 counterexample: a body that parses to the non-empty (but blank)
string consisting of one space is not thrown as the message: `buildError`
falls through to the fixed fallback message, refuting the claim's "the
body itself when it is a non-empty string". -/
theorem api_error_blank_body_counterexample :
    ApiV2.buildError (some (ApiV2.Json.str " ")) ApiV2.uploadFallbackMessage
        = ApiV2.uploadFallbackMessage
    ∧ ApiV2.buildError (some (ApiV2.Json.str " ")) ApiV2.uploadFallbackMessage
        ≠ " " := by
  constructor
  · rfl
  · intro h
    have h2 : ApiV2.uploadFallbackMessage = " " := by
      rw [← h]
      rfl
    exact absurd h2 (by decide)

/-- C10 (amended): every non-ok response makes each client method throw
`buildError` of its body with the method's fixed fallback message, and
`buildError` selects the message in the claimed order with "non-empty"
strengthened to "non-blank" (non-empty after trimming whitespace): the
body itself when it is a non-blank string, else a non-blank `detail`
string, else the JSON serialization of a truthy object-typed `detail`,
else a non-blank `message` string, else the fallback; an unparsable body
yields the fallback. -/
theorem api_error_message_selection :
    (∀ response : ApiV2.ApiResponse, response.ok = false →
        ApiV2.uploadBinanceCsv response =
          .error (ApiV2.buildError response.body ApiV2.uploadFallbackMessage))
    ∧ (∀ response : ApiV2.ApiResponse, response.ok = false →
        ApiV2.fetchDashboard response =
          .error (ApiV2.buildError response.body ApiV2.dashboardFallbackMessage))
    ∧ (∀ response : ApiV2.ApiResponse, response.ok = false →
        ApiV2.exportOperationsCsv response =
          .error (ApiV2.buildError response.body ApiV2.exportFallbackMessage))
    ∧ (∀ fb, ApiV2.buildError none fb = fb)
    ∧ (∀ s fb, ApiV2.trimString s ≠ "" →
        ApiV2.buildError (some (.str s)) fb = s)
    ∧ (∀ fields d fb, ApiV2.getField (.obj fields) "detail" = some (.str d) →
        ApiV2.trimString d ≠ "" →
        ApiV2.buildError (some (.obj fields)) fb = d)
    ∧ (∀ fields d fb, ApiV2.getField (.obj fields) "detail" = some d →
        ApiV2.isTruthy d = true → ApiV2.isObjectType d = true →
        ApiV2.buildError (some (.obj fields)) fb = ApiV2.stringify d)
    ∧ (∀ fields m fb, ApiV2.getField (.obj fields) "detail" = none →
        ApiV2.getField (.obj fields) "message" = some (.str m) →
        ApiV2.trimString m ≠ "" →
        ApiV2.buildError (some (.obj fields)) fb = m)
    ∧ (∀ fields fb, ApiV2.getField (.obj fields) "detail" = none →
        ApiV2.getField (.obj fields) "message" = none →
        ApiV2.buildError (some (.obj fields)) fb = fb) := by
  refine ⟨?_, ?_, ?_, ?_, ?_, ?_, ?_, ?_, ?_⟩
  · intro response hok
    simp [ApiV2.uploadBinanceCsv, hok]
  · intro response hok
    simp [ApiV2.fetchDashboard, hok]
  · intro response hok
    simp [ApiV2.exportOperationsCsv, hok]
  · intro fb
    rfl
  · intro s fb hs
    simp [ApiV2.buildError, hs]
  · intro fields d fb hdet hd
    simp only [ApiV2.buildError, ApiV2.detailThenMessage]
    rw [hdet]
    simp [hd]
  · intro fields d fb hdet htru hobj
    cases d with
    | str s => simp [ApiV2.isObjectType] at hobj
    | num n => simp [ApiV2.isObjectType] at hobj
    | bool b => simp [ApiV2.isObjectType] at hobj
    | null => simp [ApiV2.isTruthy] at htru
    | arr items =>
        simp only [ApiV2.buildError, ApiV2.detailThenMessage]
        rw [hdet]
        simp [htru, hobj]
    | obj dfields =>
        simp only [ApiV2.buildError, ApiV2.detailThenMessage]
        rw [hdet]
        simp [htru, hobj]
  · intro fields m fb hdet hmsg hm
    simp only [ApiV2.buildError, ApiV2.detailThenMessage,
      ApiV2.messageThenFallback]
    rw [hdet, hmsg]
    simp [hm]
  · intro fields fb hdet hmsg
    simp only [ApiV2.buildError, ApiV2.detailThenMessage,
      ApiV2.messageThenFallback]
    rw [hdet, hmsg]

/-- Witness for C10's amended theorem: a non-ok response whose body is the
non-blank string `bad input` throws exactly that string. -/
theorem api_error_message_selection_witness :
    ApiV2.uploadBinanceCsv
        { ok := false, body := some (ApiV2.Json.str "bad input") }
      = .error "bad input" := by
  have h := api_error_message_selection
  have h1 := h.1 { ok := false, body := some (ApiV2.Json.str "bad input") } rfl
  have h2 := h.2.2.2.2.1 "bad input" ApiV2.uploadFallbackMessage (by decide)
  rw [h1, h2]

end CriptoHacienda
